import Mathlib

/-!
Verification development for the `dmntk.test.runner` conformance-test runner.

This file gives a shallow embedding of the runner's core:
* the recursive three-variant value model (`src/model.rs`),
* the XML parsing rules for values and test-case types (`src/model.rs`),
* the DTO layer and its structural-equality comparison engine (`src/dto.rs`),
* the result-aggregation context and report finalization (`src/context.rs`),
together with theorems checking the documented properties of these components.

XML documents are embedded as abstract trees (`XmlNode`): a tag name, plain
attributes, schema-instance (`xsi`) attributes, optional text content and a
list of children.  This mirrors exactly what the parser reads through
`roxmltree`: `tag_name().name()`, `attribute(name)`, `attribute((XSI, name))`,
`text()` and `children()`.

Rust string primitives used by the source (`to_lowercase`, `trim`,
`split('.')`, lexicographic `cmp`) are modelled as executable functions over
the character list of a Lean `String`; on the ASCII data handled by the
runner these coincide with the Rust semantics.
-/

namespace DmnTck

/-! ## String primitives (models of Rust `str` operations) -/

/-- Model of Rust `str::to_lowercase` (ASCII-faithful): lowercases each
character. -/
def to_lowercase (s : String) : String :=
  ⟨s.data.map Char.toLower⟩

/-- Model of Rust `str::trim`: removes whitespace from both ends. -/
def trim_string (s : String) : String :=
  ⟨((s.data.dropWhile Char.isWhitespace).reverse.dropWhile Char.isWhitespace).reverse⟩

/-- Lexicographic comparison of character lists; models Rust `str::cmp`
(byte-lexicographic on UTF-8, which agrees with code-point order). -/
def chars_le : List Char → List Char → Bool
  | [], _ => true
  | _ :: _, [] => false
  | a :: as, b :: bs => if a < b then true else if a = b then chars_le as bs else false

/-- `≤` on strings as Rust's `Ord` for `String`. -/
def str_le (a b : String) : Bool :=
  chars_le a.data b.data

/-- `≤` on optional strings as Rust's `Ord` for `Option<String>`:
`None` is strictly least. -/
def opt_name_le : Option String → Option String → Bool
  | none, _ => true
  | some _, none => false
  | some a, some b => str_le a b

/-- Model of Rust `str::split(sep)` over the character list: splits at every
separator, keeping empty segments. -/
def split_aux (sep : Char) : List Char → List Char → List String
  | [], acc => [⟨acc.reverse⟩]
  | c :: rest, acc =>
    if c = sep then ⟨acc.reverse⟩ :: split_aux sep rest []
    else split_aux sep rest (c :: acc)

/-- Splits a string on a separator character, keeping empty segments
(Rust `str::split(char)`). -/
def split_char (s : String) (sep : Char) : List String :=
  split_aux sep s.data []

/-! ## XML document model

Abstract form of the `roxmltree` nodes read by the parser. -/

/-- An XML element: tag name, plain attributes, schema-instance attributes,
optional text content, child elements. -/
inductive XmlNode where
  | mk (tag : String) (attrs : List (String × String))
      (xsi_attrs : List (String × String)) (content : Option String)
      (children : List XmlNode)

/-- The element's tag name (`node.tag_name().name()`). -/
def XmlNode.tag_name : XmlNode → String
  | .mk t _ _ _ _ => t

/-- The element's plain attributes (`node.attribute(name)` namespace). -/
def XmlNode.attrs : XmlNode → List (String × String)
  | .mk _ a _ _ _ => a

/-- The element's schema-instance attributes (`node.attribute((XSI, name))`). -/
def XmlNode.xsi_attrs : XmlNode → List (String × String)
  | .mk _ _ x _ _ => x

/-- The element's text content (`node.text()`). -/
def XmlNode.content : XmlNode → Option String
  | .mk _ _ _ c _ => c

/-- The element's children (`node.children()`). -/
def XmlNode.children : XmlNode → List XmlNode
  | .mk _ _ _ _ c => c

/-- First value of the attribute with the given key, if present. -/
def lookup_attr (attrs : List (String × String)) (key : String) : Option String :=
  (attrs.find? (fun p => p.1 == key)).map (·.2)

/-- `optional_attribute` from `src/model.rs`: value of an optional plain
attribute. -/
def optional_attribute (n : XmlNode) (attr_name : String) : Option String :=
  lookup_attr n.attrs attr_name

/-- `optional_xsi_type_attribute` from `src/model.rs`: value of the optional
`xsi:type` attribute. -/
def optional_xsi_type_attribute (n : XmlNode) : Option String :=
  lookup_attr n.xsi_attrs "type"

/-- `optional_nil_attribute` from `src/model.rs`: `true` exactly when
`xsi:nil="true"` is specified. -/
def optional_nil_attribute (n : XmlNode) : Bool :=
  lookup_attr n.xsi_attrs "nil" == some "true"

/-- `optional_content` from `src/model.rs`: the optional text content. -/
def optional_content (n : XmlNode) : Option String :=
  n.content

/-- The pattern `node.children().find(|n| n.tag_name().name() == child_name)`
used throughout `src/model.rs`. -/
def find_child (n : XmlNode) (child_name : String) : Option XmlNode :=
  n.children.find? (fun c => c.tag_name == child_name)

/-! ## Value model (`src/model.rs`) -/

/-- `Simple`: simple result value — optional type tag, optional text, nil
flag. -/
structure Simple where
  typ : Option String
  text : Option String
  nil : Bool
deriving DecidableEq

mutual
/-- `Value`: a simple value, a collection of components, or a list. -/
inductive Value where
  | simple : Simple → Value
  | components : List Component → Value
  | list : ListV → Value
/-- `Component`: optional name, optional nested value, nil flag. -/
inductive Component where
  | mk (name : Option String) (value : Option Value) (nil : Bool) : Component
/-- `List` from `src/model.rs` (named `ListV` here to avoid clashing with
Lean's `List`): items plus nil flag. -/
inductive ListV where
  | mk (items : List Value) (nil : Bool) : ListV
end

/-- The component's optional name. -/
def Component.name : Component → Option String
  | .mk n _ _ => n

/-- The component's optional nested value. -/
def Component.value : Component → Option Value
  | .mk _ v _ => v

/-- The component's nil flag. -/
def Component.nil : Component → Bool
  | .mk _ _ b => b

/-- The list's items. -/
def ListV.items : ListV → List Value
  | .mk i _ => i

/-- The list's nil flag. -/
def ListV.nil : ListV → Bool
  | .mk _ b => b

/-- `impl Default for List` from `src/model.rs`: empty and nil by default. -/
def ListV.defaultV : ListV :=
  .mk [] true

/-! ## Test-case types (`src/model.rs`) -/

/-- `TestCaseType`: decision, business knowledge model, or decision
service. -/
inductive TestCaseType where
  | decision
  | businessKnowledgeModel
  | decisionService
deriving DecidableEq

/-- `impl From<String> for TestCaseType`: lowercases and trims the string,
then matches `"bkm"` and `"decisionservice"`, defaulting to `Decision`. -/
def testCaseTypeFromString (value : String) : TestCaseType :=
  let s := trim_string (to_lowercase value)
  if s = "bkm" then .businessKnowledgeModel
  else if s = "decisionservice" then .decisionService
  else .decision

/-- `impl From<Option<String>> for TestCaseType`: absent attribute defaults
to `Decision`. -/
def testCaseTypeFromOptString : Option String → TestCaseType
  | some s => testCaseTypeFromString s
  | none => .decision

/-- `parse_test_case_type` from `src/model.rs`: exact, case-sensitive match
of the `type` attribute against `"bkm"` and `"decisionService"`, defaulting
to `Decision`. -/
def parse_test_case_type (n : XmlNode) : TestCaseType :=
  match optional_attribute n "type" with
  | some t =>
    if t = "bkm" then .businessKnowledgeModel
    else if t = "decisionService" then .decisionService
    else .decision
  | none => .decision

/-- The test-case type of a result node in `parse_result_nodes`
(`optional_attribute(result_node, ATTR_TYPE).into()`). -/
def parse_result_node_type (n : XmlNode) : TestCaseType :=
  testCaseTypeFromOptString (optional_attribute n "type")

/-! ## Value parser (`src/model.rs`) -/

/-- `parse_simple_value` from `src/model.rs`: reads the single `value` child;
type from `xsi:type`, text from the content, nil from `xsi:nil`.  When a type
is present, text is absent and nil is false, the text is coerced to the empty
string. -/
def parse_simple_value (n : XmlNode) : Option Simple :=
  match find_child n "value" with
  | some value_node =>
    let typ := optional_xsi_type_attribute value_node
    let text := optional_content value_node
    let nil := optional_nil_attribute value_node
    match typ.isSome, text.isSome, nil with
    | true, false, false => some { typ := typ, text := some "", nil := nil }
    | _, _, _ => some { typ := typ, text := text, nil := nil }
  | none => none

/-- The comparator used by `items.sort_by(|a, b| a.name.cmp(&b.name))` in
`parse_value_components`. -/
def component_le (a b : Component) : Bool :=
  opt_name_le a.name b.name

theorem sizeOf_children_lt (n : XmlNode) : sizeOf n.children < sizeOf n := by
  cases n with
  | mk t a x c ch => simp [XmlNode.children]

theorem find_child_sizeOf {n m : XmlNode} {s : String}
    (h : find_child n s = some m) : sizeOf m.children < sizeOf n := by
  have hm : m ∈ n.children := List.mem_of_find?_eq_some h
  have h1 : sizeOf m.children < sizeOf m := sizeOf_children_lt m
  have h2 : sizeOf m < sizeOf n.children := List.sizeOf_lt_of_mem hm
  have h3 : sizeOf n.children < sizeOf n := sizeOf_children_lt n
  omega

mutual

/-- `parse_value_type` from `src/model.rs`: probes, in order, a simple value,
then a components collection, then a list; the first that yields a result
wins. -/
def parse_value_type (n : XmlNode) : Option Value :=
  match parse_simple_value n with
  | some v => some (Value.simple v)
  | none =>
    match parse_value_components n with
    | some c => some (Value.components c)
    | none =>
      match parse_value_list n with
      | some l => some (Value.list l)
      | none => none
termination_by (sizeOf n, 1)

/-- `parse_value_components` from `src/model.rs`: collects `component`
children; if any were collected, sorts them by name and returns them,
otherwise returns none. -/
def parse_value_components (n : XmlNode) : Option (List Component) :=
  let items := parse_component_nodes n.children
  if items.isEmpty then none
  else some (items.mergeSort component_le)
termination_by (sizeOf n, 0)
decreasing_by
  exact Prod.Lex.left _ _ (sizeOf_children_lt n)

/-- The collection loop of `parse_value_components`: for every child with tag
`component`, reads its name and nil attributes and recursively parses its
value. -/
def parse_component_nodes : List XmlNode → List Component
  | [] => []
  | c :: rest =>
    if c.tag_name = "component" then
      Component.mk (optional_attribute c "name") (parse_value_type c)
          (optional_nil_attribute c) :: parse_component_nodes rest
    else parse_component_nodes rest
termination_by l => (sizeOf l, 2)

/-- `parse_value_list` from `src/model.rs`: finds the single `list` child; if
its nil attribute is `"true"` returns the default list (empty and nil),
otherwise parses the `item` children and marks nil false. -/
def parse_value_list (n : XmlNode) : Option ListV :=
  match h : find_child n "list" with
  | some list_node =>
    if optional_nil_attribute list_node then some ListV.defaultV
    else some (ListV.mk (parse_item_nodes list_node.children) false)
  | none => none
termination_by (sizeOf n, 0)
decreasing_by
  exact Prod.Lex.left _ _ (find_child_sizeOf h)

/-- The item loop of `parse_value_list`: for every child with tag `item`,
recursively parses a value; items that fail to parse are skipped. -/
def parse_item_nodes : List XmlNode → List Value
  | [] => []
  | c :: rest =>
    if c.tag_name = "item" then
      match parse_value_type c with
      | some v => v :: parse_item_nodes rest
      | none => parse_item_nodes rest
    else parse_item_nodes rest
termination_by l => (sizeOf l, 2)

end

/-! ## DTO layer and comparison engine (`src/dto.rs`) -/

/-- `SimpleDto`: wire form of a simple value. -/
structure SimpleDto where
  typ : Option String
  text : Option String
  nil : Bool
deriving DecidableEq

mutual
/-- `ValueDto`: wire form of a value — at most one of the three branches is
populated. -/
inductive ValueDto where
  | mk (simple : Option SimpleDto) (components : Option (List ComponentDto))
      (list : Option ListDto) : ValueDto
/-- `ComponentDto`: wire form of a component. -/
inductive ComponentDto where
  | mk (name : Option String) (value : Option ValueDto) (nil : Bool) : ComponentDto
/-- `ListDto`: wire form of a list. -/
inductive ListDto where
  | mk (items : List ValueDto) (nil : Bool) : ListDto
end

/-- `impl PartialEq for SimpleDto`: type, text and nil must all be equal
(the tolerant decimal comparison in the source is commented out). -/
def simpleDtoEq (a b : SimpleDto) : Bool :=
  a.typ == b.typ && a.text == b.text && a.nil == b.nil

/-- Rust `Option<SimpleDto>` equality. -/
def optSimpleDtoEq : Option SimpleDto → Option SimpleDto → Bool
  | none, none => true
  | some a, some b => simpleDtoEq a b
  | _, _ => false

mutual

/-- The derived `PartialEq` for `ValueDto`: the three optional branches must
be pairwise equal. -/
def valueDtoEq : ValueDto → ValueDto → Bool
  | .mk s₁ c₁ l₁, .mk s₂ c₂ l₂ =>
    optSimpleDtoEq s₁ s₂ && optComponentsDtoEq c₁ c₂ && optListDtoEq l₁ l₂
termination_by structural a => a

/-- Rust `Option<Vec<ComponentDto>>` equality. -/
def optComponentsDtoEq : Option (List ComponentDto) → Option (List ComponentDto) → Bool
  | none, none => true
  | some a, some b => componentsDtoEq a b
  | _, _ => false
termination_by structural a => a

/-- Rust `Vec<ComponentDto>` equality: same length, pairwise equal. -/
def componentsDtoEq : List ComponentDto → List ComponentDto → Bool
  | [], [] => true
  | a :: as, b :: bs => componentDtoEq a b && componentsDtoEq as bs
  | _, _ => false
termination_by structural a => a

/-- The derived `PartialEq` for `ComponentDto`: name, value and nil equal. -/
def componentDtoEq : ComponentDto → ComponentDto → Bool
  | .mk n₁ v₁ b₁, .mk n₂ v₂ b₂ =>
    n₁ == n₂ && optValueDtoEq v₁ v₂ && b₁ == b₂
termination_by structural a => a

/-- Rust `Option<ValueDto>` equality. -/
def optValueDtoEq : Option ValueDto → Option ValueDto → Bool
  | none, none => true
  | some a, some b => valueDtoEq a b
  | _, _ => false
termination_by structural a => a

/-- Rust `Option<ListDto>` equality. -/
def optListDtoEq : Option ListDto → Option ListDto → Bool
  | none, none => true
  | some a, some b => listDtoEq a b
  | _, _ => false
termination_by structural a => a

/-- The derived `PartialEq` for `ListDto`: items and nil equal. -/
def listDtoEq : ListDto → ListDto → Bool
  | .mk i₁ b₁, .mk i₂ b₂ => itemsDtoEq i₁ i₂ && b₁ == b₂
termination_by structural a => a

/-- Rust `Vec<ValueDto>` equality: same length, pairwise equal. -/
def itemsDtoEq : List ValueDto → List ValueDto → Bool
  | [], [] => true
  | a :: as, b :: bs => valueDtoEq a b && itemsDtoEq as bs
  | _, _ => false
termination_by structural a => a

end

/-- `impl From<&Simple> for SimpleDto`. -/
def simpleToDto (s : Simple) : SimpleDto :=
  { typ := s.typ, text := s.text, nil := s.nil }

mutual

/-- `impl From<&Value> for ValueDto`: exactly one branch of the DTO is
populated, matching the branch of the value. -/
def valueToDto : Value → ValueDto
  | .simple s => .mk (some (simpleToDto s)) none none
  | .components cs => .mk none (some (componentsToDto cs)) none
  | .list l => .mk none none (some (listToDto l))
termination_by structural a => a

/-- Maps `ComponentDto::from` over a component list. -/
def componentsToDto : List Component → List ComponentDto
  | [] => []
  | c :: cs => componentToDto c :: componentsToDto cs
termination_by structural a => a

/-- `impl From<&Component> for ComponentDto`. -/
def componentToDto : Component → ComponentDto
  | .mk n v b => .mk n (optValueToDto v) b
termination_by structural a => a

/-- `component.value.as_ref().map(|value| value.into())`. -/
def optValueToDto : Option Value → Option ValueDto
  | none => none
  | some v => some (valueToDto v)
termination_by structural a => a

/-- `impl From<&List> for ListDto`. -/
def listToDto : ListV → ListDto
  | .mk items b => .mk (itemsToDto items) b
termination_by structural a => a

/-- Maps `ValueDto::from` over the list items. -/
def itemsToDto : List Value → List ValueDto
  | [] => []
  | v :: vs => valueToDto v :: itemsToDto vs
termination_by structural a => a

end

/-- The comparison engine: an expected value and a computed value are judged
equal exactly when their DTO forms are equal (`result_dto == expected_dto`
in `evaluate_test_case`, `src/main.rs`). -/
def equal (expected computed : Value) : Bool :=
  valueDtoEq (valueToDto computed) (valueToDto expected)

/-! ## Aggregation context (`src/context.rs`)

The context's report sinks and console output are external collaborators;
what is embedded is the run-scoped aggregation state mutated by `write_line`
and read by `display_test_cases_report`: success/failure counters, the
`BTreeSet` of succeeded case keys (modelled as a duplicate-free list — only
membership is relevant to the verdict computation) and the `BTreeMap` from
case keys to accumulated failure remarks (modelled as an association list
with at most one entry per key). -/

/-- `TestResult` from `src/context.rs`. -/
inductive TestResult where
  | success
  | failure
deriving DecidableEq

/-- The composite test-case key `(directory, file stem, test-case id)`. -/
def CaseKey := String × String × String
deriving DecidableEq

/-- The aggregation state of `Context`. -/
structure Context where
  success_count : Nat
  failure_count : Nat
  test_case_success : List CaseKey
  test_case_failure : List (CaseKey × List String)

/-- A fresh context: counters zero, no recorded case keys (`Context::new`). -/
def Context.init : Context :=
  { success_count := 0, failure_count := 0
    test_case_success := [], test_case_failure := [] }

/-- Set insertion for the success `BTreeSet`: inserting an already present
key leaves the set unchanged. -/
def insert_key (l : List CaseKey) (key : CaseKey) : List CaseKey :=
  if key ∈ l then l else key :: l

/-- `self.test_case_failure.entry(test_case_key).and_modify(|failures|
failures.push(remarks)).or_insert(vec![remarks])`: appends the remark to the
existing entry for the key, or inserts a fresh singleton entry. -/
def add_failure : List (CaseKey × List String) → CaseKey → String → List (CaseKey × List String)
  | [], key, remark => [(key, [remark])]
  | (k, rs) :: rest, key, remark =>
    if k = key then (k, rs ++ [remark]) :: rest
    else (k, rs) :: add_failure rest key remark

/-- `BTreeMap::get` on the failure map. -/
def lookup_failure (m : List (CaseKey × List String)) (key : CaseKey) : Option (List String) :=
  match m with
  | [] => none
  | (k, rs) :: rest => if k = key then some rs else lookup_failure rest key

/-- The aggregation effect of `Context::write_line`: a success bumps the
success counter and inserts the case key into the success set; a failure
bumps the failure counter and appends the remark to the failure map entry
for the case key. -/
def write_line (ctx : Context) (key : CaseKey) (result : TestResult) (remarks : String) : Context :=
  match result with
  | .success =>
    { ctx with
      success_count := ctx.success_count + 1
      test_case_success := insert_key ctx.test_case_success key }
  | .failure =>
    { ctx with
      failure_count := ctx.failure_count + 1
      test_case_failure := add_failure ctx.test_case_failure key remarks }

/-- One recorded test: its case key, outcome, and remark. -/
structure TestEvent where
  key : CaseKey
  result : TestResult
  remark : String

/-- Runs a whole sequence of `write_line` calls from a fresh context. -/
def run_events (events : List TestEvent) : Context :=
  events.foldl (fun ctx e => write_line ctx e.key e.result e.remark) Context.init

/-- The key set of the failure map (`self.test_case_failure.keys()`). -/
def failure_keys (ctx : Context) : List CaseKey :=
  ctx.test_case_failure.map (·.1)

/-- The `total` universe computed by `display_test_cases_report`: the success
set extended with every failure key. -/
def total_set (ctx : Context) : List CaseKey :=
  ctx.test_case_failure.foldl (fun acc p => insert_key acc p.1) ctx.test_case_success

/-- The case-grain passed set computed by `display_test_cases_report`:
`success.retain(|item| !self.test_case_failure.contains_key(item))`. -/
def passed_set (ctx : Context) : List CaseKey :=
  ctx.test_case_success.filter (fun key => lookup_failure ctx.test_case_failure key = none)

/-- All failure remarks recorded for a key across a sequence of events, in
recording order. -/
def failure_remarks (key : CaseKey) (events : List TestEvent) : List String :=
  events.filterMap (fun e =>
    if e.key = key ∧ e.result = TestResult.failure then some e.remark else none)

/-! ## Identity resolver and percentages (`src/context.rs`) -/

/-- What `to_rdnn` reads off the parsed `Url`: its domain and its path
segments (`url.domain()` and `url.path_segments()`; for
`https://dmntk.io/models/loan` these are `dmntk.io` and
`["models", "loan"]`). -/
structure ParsedUrl where
  domain : String
  path_segments : List String

/-- `to_rdnn` from `src/context.rs`: trims the path segments and drops the
empty ones, splits the domain on `.` and reverses the segments, then joins
reversed-domain segments followed by path segments with `/`. -/
def to_rdnn (url : ParsedUrl) : String :=
  let path_segments := (url.path_segments.map trim_string).filter (fun s => ¬s.isEmpty)
  let domain_segments := (split_char url.domain '.').reverse
  String.intercalate "/" (domain_segments ++ path_segments)

/-- `Context::calc_perc` from `src/context.rs`, with `f64` modelled as exact
rationals: for a positive total, success and failure percentages are
`100 * count / total`; for a zero total both are `0`. -/
def calc_perc (total success failure : Nat) : ℚ × ℚ :=
  if total > 0 then
    ((success * 100 : ℚ) / (total : ℚ), (failure * 100 : ℚ) / (total : ℚ))
  else
    (0, 0)

/-! ## Order facts about the sorting comparator -/

theorem chars_le_total : ∀ (a b : List Char), (chars_le a b || chars_le b a) = true
  | [], _ => by simp [chars_le]
  | _ :: _, [] => by simp [chars_le]
  | a :: as, b :: bs => by
    rcases lt_trichotomy a b with h | h | h
    · simp [chars_le, h]
    · subst h
      simpa [chars_le, lt_irrefl] using chars_le_total as bs
    · simp [chars_le, h, asymm h, ne_of_gt h]

theorem chars_le_trans :
    ∀ (a b c : List Char), chars_le a b = true → chars_le b c = true → chars_le a c = true
  | [], _, _, _, _ => by simp [chars_le]
  | _ :: _, [], _, h, _ => by simp [chars_le] at h
  | _ :: _, _ :: _, [], _, h₂ => by simp [chars_le] at h₂
  | a :: as, b :: bs, c :: cs, h₁, h₂ => by
    simp only [chars_le] at h₁ h₂ ⊢
    by_cases hab : a < b
    · by_cases hbc : b < c
      · simp [lt_trans hab hbc]
      · by_cases hbce : b = c
        · subst hbce
          simp [hab]
        · simp [hbc, hbce] at h₂
    · by_cases habe : a = b
      · subst habe
        by_cases hac : a < c
        · simp [hac]
        · by_cases hace : a = c
          · subst hace
            simp only [lt_irrefl, if_false, if_pos rfl] at h₁ h₂ ⊢
            exact chars_le_trans as bs cs h₁ h₂
          · simp [hac, hace] at h₂
      · simp [hab, habe] at h₁

theorem opt_name_le_total (a b : Option String) : (opt_name_le a b || opt_name_le b a) = true := by
  cases a with
  | none => simp [opt_name_le]
  | some x =>
    cases b with
    | none => simp [opt_name_le]
    | some y => simpa [opt_name_le, str_le] using chars_le_total x.data y.data

theorem opt_name_le_trans (a b c : Option String) :
    opt_name_le a b = true → opt_name_le b c = true → opt_name_le a c = true := by
  cases a with
  | none => simp [opt_name_le]
  | some x =>
    cases b with
    | none => simp [opt_name_le]
    | some y =>
      cases c with
      | none => simp [opt_name_le]
      | some z =>
        simpa [opt_name_le, str_le] using chars_le_trans x.data y.data z.data

theorem component_le_total (a b : Component) : (component_le a b || component_le b a) = true :=
  opt_name_le_total a.name b.name

theorem component_le_trans (a b c : Component) :
    component_le a b = true → component_le b c = true → component_le a c = true :=
  opt_name_le_trans a.name b.name c.name

/-! ## Reflexivity of the DTO equality -/

theorem simpleDtoEq_refl (s : SimpleDto) : simpleDtoEq s s = true := by
  simp [simpleDtoEq]

theorem optSimpleDtoEq_refl (s : Option SimpleDto) : optSimpleDtoEq s s = true := by
  cases s <;> simp [optSimpleDtoEq, simpleDtoEq_refl]

mutual

theorem valueDtoEq_refl : (d : ValueDto) → valueDtoEq d d = true
  | .mk s c l => by
    simp [valueDtoEq, optSimpleDtoEq_refl s, optComponentsDtoEq_refl c, optListDtoEq_refl l]
termination_by structural d => d

theorem optComponentsDtoEq_refl : (c : Option (List ComponentDto)) → optComponentsDtoEq c c = true
  | none => by simp [optComponentsDtoEq]
  | some cs => by simp [optComponentsDtoEq, componentsDtoEq_refl cs]
termination_by structural c => c

theorem componentsDtoEq_refl : (cs : List ComponentDto) → componentsDtoEq cs cs = true
  | [] => by simp [componentsDtoEq]
  | c :: cs => by simp [componentsDtoEq, componentDtoEq_refl c, componentsDtoEq_refl cs]
termination_by structural cs => cs

theorem componentDtoEq_refl : (c : ComponentDto) → componentDtoEq c c = true
  | .mk n v b => by simp [componentDtoEq, optValueDtoEq_refl v]
termination_by structural c => c

theorem optValueDtoEq_refl : (v : Option ValueDto) → optValueDtoEq v v = true
  | none => by simp [optValueDtoEq]
  | some d => by simp [optValueDtoEq, valueDtoEq_refl d]
termination_by structural v => v

theorem optListDtoEq_refl : (l : Option ListDto) → optListDtoEq l l = true
  | none => by simp [optListDtoEq]
  | some d => by simp [optListDtoEq, listDtoEq_refl d]
termination_by structural l => l

theorem listDtoEq_refl : (l : ListDto) → listDtoEq l l = true
  | .mk items b => by simp [listDtoEq, itemsDtoEq_refl items]
termination_by structural l => l

theorem itemsDtoEq_refl : (items : List ValueDto) → itemsDtoEq items items = true
  | [] => by simp [itemsDtoEq]
  | v :: vs => by simp [itemsDtoEq, valueDtoEq_refl v, itemsDtoEq_refl vs]
termination_by structural items => items

end

/-! ## Parser evaluation lemmas -/

theorem parse_item_nodes_eq_nil :
    ∀ {l : List XmlNode}, (∀ c ∈ l, c.tag_name ≠ "item") → parse_item_nodes l = []
  | [], _ => by simp [parse_item_nodes]
  | c :: rest, h => by
    have hc : c.tag_name ≠ "item" := h c (List.mem_cons_self c rest)
    have hr := parse_item_nodes_eq_nil (fun x hx => h x (List.mem_cons_of_mem c hx))
    simp [parse_item_nodes, hc, hr]

theorem parse_value_list_of_find {n l : XmlNode} (h : find_child n "list" = some l) :
    parse_value_list n =
      if optional_nil_attribute l then some ListV.defaultV
      else some (ListV.mk (parse_item_nodes l.children) false) := by
  rw [parse_value_list.eq_def]
  split
  · next l' h' =>
    rw [h] at h'
    cases h'
    rfl
  · next h' =>
    rw [h] at h'
    cases h'

/-! ## Aggregation lemmas -/

theorem mem_insert_key (l : List CaseKey) (k key : CaseKey) :
    key ∈ insert_key l k ↔ key = k ∨ key ∈ l := by
  by_cases h : k ∈ l
  · simp only [insert_key, if_pos h]
    constructor
    · exact Or.inr
    · rintro (rfl | hm)
      · exact h
      · exact hm
  · simp [insert_key, if_neg h]

theorem lookup_add_failure :
    ∀ (m : List (CaseKey × List String)) (k key : CaseKey) (r : String),
      lookup_failure (add_failure m k r) key =
        if key = k then some ((lookup_failure m key).getD [] ++ [r])
        else lookup_failure m key
  | [], k, key, r => by
    by_cases h : key = k
    · subst h
      simp [add_failure, lookup_failure]
    · have h' : ¬k = key := fun he => h he.symm
      simp [add_failure, lookup_failure, h, h']
  | (k', rs) :: rest, k, key, r => by
    by_cases hk : k' = k
    · subst hk
      by_cases h : key = k'
      · subst h
        simp [add_failure, lookup_failure]
      · have h' : ¬k' = key := fun he => h he.symm
        simp [add_failure, lookup_failure, h, h']
    · by_cases h : k' = key
      · have hkk : ¬key = k := fun he => hk (h.trans he)
        simp [add_failure, lookup_failure, hk, h, hkk]
      · simp [add_failure, lookup_failure, hk, h, lookup_add_failure rest k key r]

/-- How accumulated failure remarks combine across a run segment: an existing
entry is extended, a missing entry is created only when new remarks exist. -/
def combine_remarks : Option (List String) → List String → Option (List String)
  | some rs, new => some (rs ++ new)
  | none, new => if new.isEmpty then none else some new

theorem combine_remarks_nil (o : Option (List String)) : combine_remarks o [] = o := by
  cases o <;> simp [combine_remarks]

theorem combine_remarks_push (o : Option (List String)) (r : String) (rest : List String) :
    combine_remarks (some (o.getD [] ++ [r])) rest = combine_remarks o (r :: rest) := by
  cases o <;> simp [combine_remarks]

theorem failure_remarks_cons (key : CaseKey) (e : TestEvent) (es : List TestEvent) :
    failure_remarks key (e :: es) =
      if e.key = key ∧ e.result = TestResult.failure then e.remark :: failure_remarks key es
      else failure_remarks key es := by
  by_cases h : e.key = key ∧ e.result = TestResult.failure <;>
    simp [failure_remarks, List.filterMap_cons, h]

theorem failure_remarks_eq_nil :
    ∀ (key : CaseKey) (events : List TestEvent),
      failure_remarks key events = [] ↔
        ¬∃ e ∈ events, e.key = key ∧ e.result = TestResult.failure
  | key, [] => by simp [failure_remarks]
  | key, e :: es => by
    rw [failure_remarks_cons]
    by_cases h : e.key = key ∧ e.result = TestResult.failure
    · simp [h]
    · simp only [if_neg h, failure_remarks_eq_nil key es]
      simp [h]

theorem lookup_failure_foldl :
    ∀ (events : List TestEvent) (ctx : Context) (key : CaseKey),
      lookup_failure
          (events.foldl (fun c e => write_line c e.key e.result e.remark) ctx).test_case_failure
          key
        = combine_remarks (lookup_failure ctx.test_case_failure key) (failure_remarks key events)
  | [], ctx, key => by simp [failure_remarks, combine_remarks_nil]
  | e :: es, ctx, key => by
    rw [List.foldl_cons, lookup_failure_foldl es _ key, failure_remarks_cons]
    cases hr : e.result with
    | success =>
      simp [write_line, hr]
    | failure =>
      by_cases hk : e.key = key
      · subst hk
        simp [write_line, lookup_add_failure, combine_remarks_push]
      · have : ¬key = e.key := fun he => hk he.symm
        simp [write_line, lookup_add_failure, this, hk]

theorem mem_success_foldl :
    ∀ (events : List TestEvent) (ctx : Context) (key : CaseKey),
      key ∈ (events.foldl (fun c e => write_line c e.key e.result e.remark) ctx).test_case_success
        ↔ key ∈ ctx.test_case_success ∨ ∃ e ∈ events, e.key = key ∧ e.result = TestResult.success
  | [], ctx, key => by simp
  | e :: es, ctx, key => by
    rw [List.foldl_cons, mem_success_foldl es _ key]
    cases hr : e.result with
    | success =>
      simp only [write_line, mem_insert_key, List.mem_cons]
      constructor
      · rintro (⟨rfl | hm⟩ | hes)
        · exact Or.inr ⟨e, Or.inl rfl, rfl, hr⟩
        · exact Or.inl hm
        · rcases hes with ⟨x, hx, hxk, hxr⟩
          exact Or.inr ⟨x, Or.inr hx, hxk, hxr⟩
      · rintro (hm | ⟨x, hx | hx, hxk, hxr⟩)
        · exact Or.inl (Or.inr hm)
        · subst hx
          exact Or.inl (Or.inl hxk.symm)
        · exact Or.inr ⟨x, hx, hxk, hxr⟩
    | failure =>
      simp only [write_line, List.mem_cons]
      constructor
      · rintro (hm | hes)
        · exact Or.inl hm
        · rcases hes with ⟨x, hx, hxk, hxr⟩
          exact Or.inr ⟨x, Or.inr hx, hxk, hxr⟩
      · rintro (hm | ⟨x, hx | hx, hxk, hxr⟩)
        · exact Or.inl hm
        · subst hx
          rw [hr] at hxr
          cases hxr
        · exact Or.inr ⟨x, hx, hxk, hxr⟩

theorem mem_map_fst_iff_lookup :
    ∀ (m : List (CaseKey × List String)) (key : CaseKey),
      key ∈ m.map (·.1) ↔ lookup_failure m key ≠ none
  | [], key => by simp [lookup_failure]
  | (k, rs) :: rest, key => by
    by_cases h : k = key
    · subst h
      simp [lookup_failure]
    · have h' : ¬key = k := fun he => h he.symm
      simp [lookup_failure, h, h', mem_map_fst_iff_lookup rest key]

theorem mem_total_foldl :
    ∀ (m : List (CaseKey × List String)) (acc : List CaseKey) (key : CaseKey),
      key ∈ m.foldl (fun acc p => insert_key acc p.1) acc ↔ key ∈ acc ∨ ∃ p ∈ m, p.1 = key
  | [], acc, key => by simp
  | p :: rest, acc, key => by
    rw [List.foldl_cons, mem_total_foldl rest _ key]
    simp only [mem_insert_key, List.mem_cons]
    constructor
    · rintro (⟨rfl | hm⟩ | hes)
      · exact Or.inr ⟨p, Or.inl rfl, rfl⟩
      · exact Or.inl hm
      · rcases hes with ⟨q, hq, hqk⟩
        exact Or.inr ⟨q, Or.inr hq, hqk⟩
    · rintro (hm | ⟨q, hq | hq, hqk⟩)
      · exact Or.inl (Or.inr hm)
      · subst hq
        exact Or.inl (Or.inl hqk.symm)
      · exact Or.inr ⟨q, hq, hqk⟩

theorem mem_passed_set (ctx : Context) (key : CaseKey) :
    key ∈ passed_set ctx ↔
      key ∈ ctx.test_case_success ∧ lookup_failure ctx.test_case_failure key = none := by
  simp [passed_set, List.mem_filter]

/-! ## Claim theorems -/

/-- C1: Two Simple values compare equal under the Comparison Engine if and
only if their type, text and nil fields are all equal — exact string and
boolean equality, no numeric tolerance — for every pair of Simple values. -/
theorem simple_values_equal_iff_fields_equal (a b : Simple) :
    equal (Value.simple a) (Value.simple b) = true ↔
      a.typ = b.typ ∧ a.text = b.text ∧ a.nil = b.nil := by
  simp only [equal, valueToDto, valueDtoEq, optSimpleDtoEq, optComponentsDtoEq, optListDtoEq,
    simpleDtoEq, simpleToDto, Bool.and_eq_true, beq_iff_eq, and_true]
  constructor
  · rintro ⟨⟨h₁, h₂⟩, h₃⟩
    exact ⟨h₁.symm, h₂.symm, h₃.symm⟩
  · rintro ⟨h₁, h₂, h₃⟩
    exact ⟨⟨h₁.symm, h₂.symm⟩, h₃.symm⟩

/-- C2: The Comparison Engine's equality is reflexive — `equal v v` holds for
every constructible Value — and branch-exclusive: a Simple value never equals
a List value and a Simple value never equals a Components value, regardless
of their contents. -/
theorem equal_refl_and_branch_exclusive :
    (∀ v : Value, equal v v = true) ∧
    (∀ (s : Simple) (l : ListV), equal (Value.simple s) (Value.list l) = false) ∧
    (∀ (s : Simple) (cs : List Component), equal (Value.simple s) (Value.components cs) = false) := by
  refine ⟨fun v => ?_, fun s l => ?_, fun s cs => ?_⟩
  · simpa [equal] using valueDtoEq_refl (valueToDto v)
  · simp [equal, valueToDto, valueDtoEq, optSimpleDtoEq]
  · simp [equal, valueToDto, valueDtoEq, optSimpleDtoEq]

/-- C3: Parsing a list element with no nil attribute and no item children
yields `{nil: false, items: []}`, parsing a list element with
`xsi:nil="true"` yields `{nil: true, items: []}` whatever its children, and
these two parsed values compare unequal under the Comparison Engine even
though both have zero items. -/
theorem nil_list_parse_distinction (n₁ n₂ l₁ l₂ : XmlNode)
    (h₁ : find_child n₁ "list" = some l₁)
    (hnil₁ : optional_nil_attribute l₁ = false)
    (hitems : ∀ c ∈ l₁.children, c.tag_name ≠ "item")
    (h₂ : find_child n₂ "list" = some l₂)
    (hnil₂ : optional_nil_attribute l₂ = true) :
    parse_value_list n₁ = some (ListV.mk [] false) ∧
    parse_value_list n₂ = some (ListV.mk [] true) ∧
    equal (Value.list (ListV.mk [] false)) (Value.list (ListV.mk [] true)) = false := by
  refine ⟨?_, ?_, by decide⟩
  · rw [parse_value_list_of_find h₁]
    simp [hnil₁, parse_item_nodes_eq_nil hitems]
  · rw [parse_value_list_of_find h₂]
    simp [hnil₂, ListV.defaultV]

/-- Witness for C3 at concrete documents: `<list/>` inside a node parses to
a non-nil empty list, `<list xsi:nil="true"><item/></list>` parses to the
nil empty list, and the two compare unequal. -/
theorem nil_list_parse_distinction_witness :
    parse_value_list (XmlNode.mk "inputNode" [] [] none [XmlNode.mk "list" [] [] none []]) =
        some (ListV.mk [] false) ∧
      parse_value_list (XmlNode.mk "inputNode" [] [] none
          [XmlNode.mk "list" [] [("nil", "true")] none [XmlNode.mk "item" [] [] none []]]) =
        some (ListV.mk [] true) ∧
      equal (Value.list (ListV.mk [] false)) (Value.list (ListV.mk [] true)) = false :=
  nil_list_parse_distinction
    (XmlNode.mk "inputNode" [] [] none [XmlNode.mk "list" [] [] none []])
    (XmlNode.mk "inputNode" [] [] none
      [XmlNode.mk "list" [] [("nil", "true")] none [XmlNode.mk "item" [] [] none []]])
    (XmlNode.mk "list" [] [] none [])
    (XmlNode.mk "list" [] [("nil", "true")] none [XmlNode.mk "item" [] [] none []])
    rfl (by decide) (by decide) rfl (by decide)

/-- C8: The default list value — used for an empty/absent list — is nil with
empty items; a `nil="true"` list parses to exactly that default, a present
non-nil list without items parses to nil = false with empty items, and the
two states are kept distinct by the Comparison Engine. -/
theorem default_list_nil_distinction :
    ListV.defaultV = ListV.mk [] true ∧
    (∀ (n l : XmlNode), find_child n "list" = some l → optional_nil_attribute l = true →
      parse_value_list n = some (ListV.mk [] true)) ∧
    (∀ (n l : XmlNode), find_child n "list" = some l → optional_nil_attribute l = false →
      (∀ c ∈ l.children, c.tag_name ≠ "item") →
      parse_value_list n = some (ListV.mk [] false)) ∧
    equal (Value.list (ListV.mk [] true)) (Value.list (ListV.mk [] false)) = false := by
  refine ⟨rfl, fun n l h hnil => ?_, fun n l h hnil hitems => ?_, by decide⟩
  · rw [parse_value_list_of_find h]
    simp [hnil, ListV.defaultV]
  · rw [parse_value_list_of_find h]
    simp [hnil, parse_item_nodes_eq_nil hitems]

/-- Witness for C8 at concrete documents: the nil-true list (with an ignored
item child) parses to the default nil list, the plain empty list parses
non-nil. -/
theorem default_list_nil_distinction_witness :
    parse_value_list (XmlNode.mk "resultNode" [] [] none
        [XmlNode.mk "list" [] [("nil", "true")] none [XmlNode.mk "item" [] [] none []]]) =
      some (ListV.mk [] true) ∧
    parse_value_list (XmlNode.mk "resultNode" [] [] none [XmlNode.mk "list" [] [] none []]) =
      some (ListV.mk [] false) :=
  ⟨default_list_nil_distinction.2.1
      (XmlNode.mk "resultNode" [] [] none
        [XmlNode.mk "list" [] [("nil", "true")] none [XmlNode.mk "item" [] [] none []]])
      (XmlNode.mk "list" [] [("nil", "true")] none [XmlNode.mk "item" [] [] none []])
      rfl (by decide),
    default_list_nil_distinction.2.2.1
      (XmlNode.mk "resultNode" [] [] none [XmlNode.mk "list" [] [] none []])
      (XmlNode.mk "list" [] [] none [])
      rfl (by decide) (by decide)⟩

/-- C5: Every parsed Components collection is sorted ascending by name with
missing names least (pairwise `opt_name_le` on names), and an absent or
empty components collection is surfaced as none, never as an empty list. -/
theorem components_sorted_and_nonempty (n : XmlNode) (items : List Component)
    (h : parse_value_components n = some items) :
    items.Pairwise (fun a b => opt_name_le a.name b.name = true) ∧ items ≠ [] := by
  simp only [parse_value_components] at h
  by_cases he : (parse_component_nodes n.children).isEmpty
  · simp [he] at h
  · rw [if_neg (by simp [he])] at h
    have hitems : items = (parse_component_nodes n.children).mergeSort component_le :=
      (Option.some.inj h).symm
    subst hitems
    constructor
    · exact List.sorted_mergeSort component_le_trans component_le_total
        (parse_component_nodes n.children)
    · have hlen := (List.mergeSort_perm (parse_component_nodes n.children) component_le).length_eq
      intro hnil
      rw [hnil] at hlen
      have : parse_component_nodes n.children = [] := List.eq_nil_of_length_eq_zero hlen.symm
      simp [this] at he

/-- Witness for C5: a node with one component child parses to a nonempty,
trivially sorted collection. -/
theorem components_sorted_and_nonempty_witness :
    parse_value_components (XmlNode.mk "resultNode" [] [] none
        [XmlNode.mk "component" [("name", "x")] [] none []]) =
      some [Component.mk (some "x") none false] ∧
    ([Component.mk (some "x") none false].Pairwise
        (fun a b => opt_name_le a.name b.name = true) ∧
      [Component.mk (some "x") none false] ≠ []) := by
  have h0 : parse_component_nodes
      [XmlNode.mk "component" [("name", "x")] [] none []] =
      [Component.mk (some "x") none false] := by
    simp [parse_component_nodes, parse_value_type, parse_simple_value, parse_value_components,
      parse_value_list, find_child, XmlNode.children, XmlNode.tag_name, optional_attribute,
      optional_nil_attribute, lookup_attr, XmlNode.attrs, XmlNode.xsi_attrs, List.find?]
  have h : parse_value_components (XmlNode.mk "resultNode" [] [] none
      [XmlNode.mk "component" [("name", "x")] [] none []]) =
      some [Component.mk (some "x") none false] := by
    simp [parse_value_components, XmlNode.children, h0, List.mergeSort_of_sorted]
  exact ⟨h, components_sorted_and_nonempty _ _ h⟩

/-- C6: When a simple value is parsed and a type attribute is present while
text content is absent and nil is false, the parsed text is the empty string
rather than absent; in every other combination the type, text and nil are
taken as read. -/
theorem simple_value_empty_text_coercion (n v : XmlNode)
    (h : find_child n "value" = some v) :
    parse_simple_value n = some (
      if (optional_xsi_type_attribute v).isSome ∧ optional_content v = none ∧
          optional_nil_attribute v = false then
        Simple.mk (optional_xsi_type_attribute v) (some "") false
      else
        Simple.mk (optional_xsi_type_attribute v) (optional_content v)
          (optional_nil_attribute v)) := by
  cases ht : optional_xsi_type_attribute v <;>
    cases hc : optional_content v <;>
      cases hn : optional_nil_attribute v <;>
        simp [parse_simple_value, h, ht, hc, hn]

/-- Witness for C6: a `value` child with a type, no text and no nil parses
with text coerced to the empty string. -/
theorem simple_value_empty_text_coercion_witness :
    parse_simple_value (XmlNode.mk "inputNode" [] [] none
        [XmlNode.mk "value" [] [("type", "xsd:string")] none []]) =
      some (Simple.mk (some "xsd:string") (some "") false) := by
  rw [simple_value_empty_text_coercion
    (XmlNode.mk "inputNode" [] [] none [XmlNode.mk "value" [] [("type", "xsd:string")] none []])
    (XmlNode.mk "value" [] [("type", "xsd:string")] none [])
    rfl]
  decide

/-- C7: The namespace RDNN of a URL is the join with `/` of the reversed
dot-separated domain segments followed by the trimmed non-empty path
segments; in particular `https://dmntk.io/models/loan` yields
`io/dmntk/models/loan`. -/
theorem to_rdnn_reverses_domain_and_appends_path :
    (∀ u : ParsedUrl,
      to_rdnn u = String.intercalate "/"
        ((split_char u.domain '.').reverse ++
          ((u.path_segments.map trim_string).filter (fun s => ¬s.isEmpty)))) ∧
    to_rdnn ⟨"dmntk.io", ["models", "loan"]⟩ = "io/dmntk/models/loan" ∧
    to_rdnn ⟨"dmntk.io", [" models ", "", "loan"]⟩ = "io/dmntk/models/loan" :=
  ⟨fun _ => rfl, by decide, by decide⟩

/-- C9: The percentage computation returns `(0, 0)` whenever the total is
zero, and otherwise returns `100 * count / total` for both counts with a
nonzero divisor (with `f64` arithmetic modelled as exact rationals). -/
theorem calc_perc_zero_guard :
    (∀ success failure : Nat, calc_perc 0 success failure = (0, 0)) ∧
    (∀ total success failure : Nat, 0 < total →
      calc_perc total success failure =
          ((success * 100 : ℚ) / (total : ℚ), (failure * 100 : ℚ) / (total : ℚ)) ∧
        (total : ℚ) ≠ 0) := by
  constructor
  · intro s f
    simp [calc_perc]
  · intro t s f ht
    refine ⟨by simp [calc_perc, ht], ?_⟩
    exact Nat.cast_ne_zero.mpr (Nat.pos_iff_ne_zero.mp ht)

/-- Witness for C9 at concrete totals: zero total yields `(0, 0)`, total 4
with 1 success and 3 failures yields `(100/4, 300/4)` with nonzero
divisor. -/
theorem calc_perc_zero_guard_witness :
    calc_perc 0 5 7 = (0, 0) ∧
      (calc_perc 4 1 3 = (((1 : Nat) * 100 : ℚ) / ((4 : Nat) : ℚ),
          ((3 : Nat) * 100 : ℚ) / ((4 : Nat) : ℚ)) ∧
        ((4 : Nat) : ℚ) ≠ 0) :=
  ⟨calc_perc_zero_guard.1 5 7, calc_perc_zero_guard.2 4 1 3 (by norm_num)⟩

/-- C10: A result node's kind lowercases and trims its type attribute before
matching (`"bkm"` gives BusinessKnowledgeModel, `"decisionservice"` gives
DecisionService, anything else or absence gives Decision), whereas a test
case's kind matches the attribute exactly and case-sensitively (only the
literals `"bkm"` and `"decisionService"`); on `"BKM"` the two kinds
differ. -/
theorem test_case_type_matching_divergence :
    (∀ (n : XmlNode) (t : String), optional_attribute n "type" = some t →
      parse_result_node_type n = testCaseTypeFromString t ∧
      parse_test_case_type n =
        (if t = "bkm" then TestCaseType.businessKnowledgeModel
         else if t = "decisionService" then TestCaseType.decisionService
         else TestCaseType.decision)) ∧
    (∀ n : XmlNode, optional_attribute n "type" = none →
      parse_result_node_type n = TestCaseType.decision ∧
      parse_test_case_type n = TestCaseType.decision) ∧
    (∀ s : String, trim_string (to_lowercase s) = "bkm" →
      testCaseTypeFromString s = TestCaseType.businessKnowledgeModel) ∧
    (∀ s : String, trim_string (to_lowercase s) = "decisionservice" →
      testCaseTypeFromString s = TestCaseType.decisionService) ∧
    (∀ s : String, trim_string (to_lowercase s) ≠ "bkm" →
      trim_string (to_lowercase s) ≠ "decisionservice" →
      testCaseTypeFromString s = TestCaseType.decision) ∧
    (testCaseTypeFromString "BKM" = TestCaseType.businessKnowledgeModel ∧
      ∀ n : XmlNode, optional_attribute n "type" = some "BKM" →
        parse_test_case_type n = TestCaseType.decision) := by
  refine ⟨fun n t h => ⟨?_, ?_⟩, fun n h => ⟨?_, ?_⟩, fun s h => ?_, fun s h => ?_,
    fun s h₁ h₂ => ?_, by decide, fun n h => ?_⟩
  · simp [parse_result_node_type, h, testCaseTypeFromOptString]
  · simp [parse_test_case_type, h]
  · simp [parse_result_node_type, h, testCaseTypeFromOptString]
  · simp [parse_test_case_type, h]
  · simp [testCaseTypeFromString, h]
  · simp [testCaseTypeFromString, h]
  · simp [testCaseTypeFromString, h₁, h₂]
  · simp [parse_test_case_type, h]

/-- Witness for C10 at the attribute string `"BKM"`: the result-node rule
recognizes it as a business knowledge model while the test-case rule falls
back to Decision — and at an absent attribute both give Decision. -/
theorem test_case_type_matching_divergence_witness :
    (parse_result_node_type (XmlNode.mk "resultNode" [("type", "BKM")] [] none []) =
        testCaseTypeFromString "BKM" ∧
      parse_test_case_type (XmlNode.mk "resultNode" [("type", "BKM")] [] none []) =
        (if "BKM" = "bkm" then TestCaseType.businessKnowledgeModel
         else if "BKM" = "decisionService" then TestCaseType.decisionService
         else TestCaseType.decision)) ∧
    (testCaseTypeFromString "BKM" = TestCaseType.businessKnowledgeModel ∧
      parse_test_case_type (XmlNode.mk "testCase" [("type", "BKM")] [] none []) =
        TestCaseType.decision) :=
  ⟨test_case_type_matching_divergence.1
      (XmlNode.mk "resultNode" [("type", "BKM")] [] none []) "BKM" rfl,
    test_case_type_matching_divergence.2.2.2.2.2.1,
    test_case_type_matching_divergence.2.2.2.2.2.2
      (XmlNode.mk "testCase" [("type", "BKM")] [] none []) rfl⟩

/-- C4: At finalization, the case-grain passed set is the success-key set
minus every key present in the failure map; a key with at least one success
and at least one failure lands in the failure universe only, with all its
failure remarks accumulated; and a key with zero recorded tests is absent
from the totals entirely. -/
theorem finalize_case_grain_verdicts (events : List TestEvent) (key : CaseKey) :
    (key ∈ passed_set (run_events events) ↔
      key ∈ (run_events events).test_case_success ∧
        key ∉ failure_keys (run_events events)) ∧
    (key ∈ passed_set (run_events events) ↔
      (∃ e ∈ events, e.key = key ∧ e.result = TestResult.success) ∧
        ¬∃ e ∈ events, e.key = key ∧ e.result = TestResult.failure) ∧
    ((∃ e ∈ events, e.key = key ∧ e.result = TestResult.success) →
      (∃ e ∈ events, e.key = key ∧ e.result = TestResult.failure) →
      key ∈ failure_keys (run_events events) ∧
        key ∉ passed_set (run_events events) ∧
        lookup_failure (run_events events).test_case_failure key =
          some (failure_remarks key events)) ∧
    ((∀ e ∈ events, e.key ≠ key) → key ∉ total_set (run_events events)) := by
  have hrun : run_events events =
      events.foldl (fun c e => write_line c e.key e.result e.remark) Context.init := rfl
  have hsucc : key ∈ (run_events events).test_case_success ↔
      ∃ e ∈ events, e.key = key ∧ e.result = TestResult.success := by
    rw [hrun, mem_success_foldl]
    simp [Context.init]
  have hlook : lookup_failure (run_events events).test_case_failure key =
      combine_remarks none (failure_remarks key events) := by
    rw [hrun, lookup_failure_foldl]
    rfl
  have hlook_none : lookup_failure (run_events events).test_case_failure key = none ↔
      ¬∃ e ∈ events, e.key = key ∧ e.result = TestResult.failure := by
    rw [hlook, ← failure_remarks_eq_nil key events]
    cases hre : failure_remarks key events with
    | nil => simp [combine_remarks]
    | cons r rs => simp [combine_remarks]
  have hfkeys : key ∈ failure_keys (run_events events) ↔
      lookup_failure (run_events events).test_case_failure key ≠ none :=
    mem_map_fst_iff_lookup _ key
  refine ⟨?_, ?_, ?_, ?_⟩
  · rw [mem_passed_set, hfkeys]
    simp
  · rw [mem_passed_set, hsucc, hlook_none]
  · intro hexs hexf
    have hne : lookup_failure (run_events events).test_case_failure key ≠ none :=
      fun h => (hlook_none.mp h) hexf
    refine ⟨hfkeys.mpr hne, ?_, ?_⟩
    · rw [mem_passed_set]
      exact fun h => hne h.2
    · have hrem : failure_remarks key events ≠ [] :=
        fun h => ((failure_remarks_eq_nil key events).mp h) hexf
      rw [hlook]
      cases hre : failure_remarks key events with
      | nil => exact absurd hre hrem
      | cons r rs => simp [combine_remarks]
  · intro hnone
    rw [total_set, hrun]
    rw [show (events.foldl (fun c e => write_line c e.key e.result e.remark)
        Context.init) = run_events events from rfl]
    rw [mem_total_foldl]
    rintro (hm | ⟨p, hp, hpk⟩)
    · have := hsucc.mp hm
      rcases this with ⟨e, he, hek, _⟩
      exact hnone e he hek
    · have hkm : key ∈ (run_events events).test_case_failure.map (·.1) :=
        List.mem_map.mpr ⟨p, hp, hpk⟩
      have hne := (mem_map_fst_iff_lookup _ key).mp hkm
      by_cases hex : ∃ e ∈ events, e.key = key ∧ e.result = TestResult.failure
      · rcases hex with ⟨e, he, hek, _⟩
        exact hnone e he hek
      · exact hne (hlook_none.mpr hex)

/-- Witness for C4: in a run with one success and two failures for the same
case key, that key lands in the failure universe with both remarks in order
and is not in the passed set; an unrecorded key is absent from the total
set. -/
theorem finalize_case_grain_verdicts_witness :
    (("d", "f", "001") ∈ failure_keys (run_events
        [⟨("d", "f", "001"), TestResult.success, "40 µs"⟩,
          ⟨("d", "f", "001"), TestResult.failure, "boom"⟩,
          ⟨("d", "f", "001"), TestResult.failure, "bang"⟩]) ∧
      ("d", "f", "001") ∉ passed_set (run_events
        [⟨("d", "f", "001"), TestResult.success, "40 µs"⟩,
          ⟨("d", "f", "001"), TestResult.failure, "boom"⟩,
          ⟨("d", "f", "001"), TestResult.failure, "bang"⟩]) ∧
      lookup_failure (run_events
        [⟨("d", "f", "001"), TestResult.success, "40 µs"⟩,
          ⟨("d", "f", "001"), TestResult.failure, "boom"⟩,
          ⟨("d", "f", "001"), TestResult.failure, "bang"⟩]).test_case_failure
        ("d", "f", "001") = some ["boom", "bang"]) ∧
    ("x", "y", "z") ∉ total_set (run_events
        [⟨("d", "f", "001"), TestResult.success, "40 µs"⟩,
          ⟨("d", "f", "001"), TestResult.failure, "boom"⟩,
          ⟨("d", "f", "001"), TestResult.failure, "bang"⟩]) := by
  have h := (finalize_case_grain_verdicts
    [⟨("d", "f", "001"), TestResult.success, "40 µs"⟩,
      ⟨("d", "f", "001"), TestResult.failure, "boom"⟩,
      ⟨("d", "f", "001"), TestResult.failure, "bang"⟩]
    ("d", "f", "001")).2.2.1 (by decide) (by decide)
  have h2 := (finalize_case_grain_verdicts
    [⟨("d", "f", "001"), TestResult.success, "40 µs"⟩,
      ⟨("d", "f", "001"), TestResult.failure, "boom"⟩,
      ⟨("d", "f", "001"), TestResult.failure, "bang"⟩]
    ("x", "y", "z")).2.2.2 (by decide)
  refine ⟨⟨h.1, h.2.1, ?_⟩, h2⟩
  rw [h.2.2]
  decide

end DmnTck
